import Mathlib

/-
Verification development for the ConceptSectionStockScreening repository.

The two scripts (concept_section_screening.py and lianban_scraper.py) are
shallowly embedded here.  Python strings are `List Char` (one entry per code
point), Python floats are `ℚ` (the scripts only perform exact decimal
arithmetic on the values the claims mention), Python dicts with a fixed key
set are structures whose optional keys are `Option`-valued (a key that a
given code path never stores is `none`), Python `None` is `Option.none`, and
a caught exception is an `Except.error` value.  Machine I/O (HTTP fetches,
file reads and writes, logging, clock reads) is passed in as explicit
arguments: each embedded function is the pure core of the source function,
taking the fetched/parsed payload and the current date as parameters.
-/

/-! ## Python string primitives -/

/-- Embedding of Python `str.strip()`: drop whitespace from both ends of a
character list. -/
def pyStrip (l : List Char) : List Char :=
  ((l.dropWhile Char.isWhitespace).reverse.dropWhile Char.isWhitespace).reverse

/-- Embedding of Python `str.replace(c, '')` for a one-character pattern:
remove every occurrence of the character `c`. -/
def removeAll (c : Char) : List Char → List Char
  | [] => []
  | d :: r => if d = c then removeAll c r else d :: removeAll c r

/-- Numeric value of a list of decimal digit characters, most significant
first (the empty list denotes 0; callers guard non-emptiness). -/
def digitsToNat (l : List Char) : Nat :=
  l.foldl (fun n c => 10 * n + (c.toNat - '0'.toNat)) 0

/-- Split a character list at the first `'.'`: the part before it, and
`some` of the part after it when a dot is present. -/
def splitAtDot : List Char → List Char × Option (List Char)
  | [] => ([], none)
  | c :: r =>
    if c = '.' then ([], some r)
    else
      let p := splitAtDot r
      (c :: p.1, p.2)

/-- Exact decimal representation of a parsed float: a signed mantissa and
the number of digits after the decimal point; the denoted rational is
`mantissa / 10 ^ places` (see `qOfRep`). -/
def pyFloatRep (l : List Char) : Option (Int × Nat) :=
  let t := pyStrip l
  let sr : Int × List Char :=
    match t with
    | '+' :: r => (1, r)
    | '-' :: r => (-1, r)
    | r => (1, r)
  match splitAtDot sr.2 with
  | (ip, none) =>
    if ip ≠ [] ∧ ip.all Char.isDigit then
      some (sr.1 * (digitsToNat ip : Int), 0)
    else none
  | (ip, some fp) =>
    if (ip ≠ [] ∨ fp ≠ []) ∧ ip.all Char.isDigit ∧ fp.all Char.isDigit then
      some (sr.1 * (digitsToNat (ip ++ fp) : Int), fp.length)
    else none

/-- The rational a decimal representation denotes. -/
def qOfRep (p : Int × Nat) : ℚ :=
  (p.1 : ℚ) / (10 : ℚ) ^ p.2

/-- Embedding of the Python builtin `float(str)` on the plain decimal
fragment the repository feeds it: optional surrounding whitespace, an
optional sign, then digits with at most one decimal point (`"1."` and
`".5"` are accepted, as in Python).  `none` models `float` raising
`ValueError`.  Exponent forms, `inf`/`nan` and digit underscores lie
outside the fragment any call site of the two scripts can produce. -/
def pyFloat (l : List Char) : Option ℚ :=
  (pyFloatRep l).map qOfRep

/-! ## Value coercers (concept_section_screening.py lines 294-329) -/

/-- Embedding of `parse_percentage` (concept_section_screening.py 294-309):
`value.replace('%', '').strip()` parsed as a float, `0.0` when the parse
fails (the bare `except` returns 0.0, so the function never raises). -/
def parse_percentage (value : List Char) : ℚ :=
  (pyFloat (pyStrip (removeAll '%' value))).getD 0

/-- Embedding of `parse_money_value` (concept_section_screening.py 311-329):
`value.replace('亿', '').replace('万', '').strip()`, then a (dead, see the
claims) `'万' in value` test choosing between `float(value)/10000` and
`float(value)`; the bare `except` yields `0.0`. -/
def parse_money_value (value : List Char) : ℚ :=
  let v := pyStrip (removeAll '万' (removeAll '亿' value))
  if v.contains '万' then (pyFloat v).getD 0 / 10000
  else (pyFloat v).getD 0

/-! ## Concept pipeline (concept_section_screening.py) -/

/-- One item of the provider's `data.diff` array: the field codes the API
request asks for.  A missing key is `none`; `item.get(k, 0)` (or `''`)
reads the default.  The numeric codes carry JSON numbers, the text codes
strings. -/
structure ApiItem where
  f12 : Option (List Char) := none
  f14 : Option (List Char) := none
  f2 : Option ℚ := none
  f3 : Option ℚ := none
  f62 : Option ℚ := none
  f184 : Option ℚ := none
  f66 : Option ℚ := none
  f69 : Option ℚ := none
  f72 : Option ℚ := none
  f75 : Option ℚ := none
  f78 : Option ℚ := none
  f81 : Option ℚ := none
  f84 : Option ℚ := none
  f87 : Option ℚ := none
  f204 : Option (List Char) := none
  f205 : Option (List Char) := none
  f124 : Option (List Char) := none
deriving DecidableEq

/-- A sector/concept record as the script builds it, one field per dict key.
The two builders store different key sets, so every key that only one of
them writes is `Option`-valued and `none` means the key is absent from the
dict: the API builder (lines 76-94) writes `code` .. `datetime` but no
`total_inflow`; the table-row builder `extract_concept_data` (lines
278-288) writes `name` .. `total_inflow` but no `code`/`current_price`/
ratio keys. -/
structure ConceptRec where
  code : Option (List Char) := none
  name : List Char := []
  current_price : Option ℚ := none
  change_rate : ℚ := 0
  main_inflow : ℚ := 0
  main_inflow_ratio : Option ℚ := none
  super_large_inflow : ℚ := 0
  super_large_inflow_ratio : Option ℚ := none
  large_inflow : ℚ := 0
  large_inflow_ratio : Option ℚ := none
  medium_inflow : ℚ := 0
  medium_inflow_ratio : Option ℚ := none
  small_inflow : ℚ := 0
  small_inflow_ratio : Option ℚ := none
  max_stock : List Char := []
  max_stock_code : Option (List Char) := none
  datetime : Option (List Char) := none
  total_inflow : Option ℚ := none
deriving DecidableEq

/-- The concept dict built from one API item (concept_section_screening.py
lines 76-94).  Note that the dict literal has no `total_inflow` key. -/
def conceptOfApiItem (item : ApiItem) : ConceptRec :=
  { code := some (item.f12.getD [])
    name := item.f14.getD []
    current_price := some (item.f2.getD 0)
    change_rate := item.f3.getD 0
    main_inflow := item.f62.getD 0
    main_inflow_ratio := some (item.f184.getD 0)
    super_large_inflow := item.f66.getD 0
    super_large_inflow_ratio := some (item.f69.getD 0)
    large_inflow := item.f72.getD 0
    large_inflow_ratio := some (item.f75.getD 0)
    medium_inflow := item.f78.getD 0
    medium_inflow_ratio := some (item.f81.getD 0)
    small_inflow := item.f84.getD 0
    small_inflow_ratio := some (item.f87.getD 0)
    max_stock := item.f204.getD []
    max_stock_code := some (item.f205.getD [])
    datetime := some (item.f124.getD [])
    total_inflow := none }

/-- Pure core of `get_top_concept_sections` (concept_section_screening.py
lines 21-106) after the HTTP fetch: `rc` is the response's `rc` field and
`diff` its `data.diff` array (`[]` when `data` or `diff` is missing or
empty, both falsy).  The function returns `[]` on a bad response, else the
dicts built from the first 10 items; `save_concept_data` writes this very
list as the current snapshot.  The code after the first `return` (lines
108-122, the table path) is unreachable. -/
def get_top_concept_sections (rc : Int) (diff : List ApiItem) : List ConceptRec :=
  if rc ≠ 0 ∨ diff = [] then []
  else (diff.take 10).map conceptOfApiItem

/-- A pandas row as `extract_concept_data` reads it: label/cell pairs in
column order.  A cell is `none` for NaN; a non-NaN cell is modelled by its
`str()` rendering (the row's values are fed through `str(...)` before
every parse). -/
def Row : Type := List (List Char × Option (List Char))

/-- `label in row.index` / `row[label]`: the first cell under `label`. -/
def rowGet (r : Row) (label : List Char) : Option (Option (List Char)) :=
  ((r : List (List Char × Option (List Char))).find?
      (fun p => decide (p.1 = label))).map Prod.snd

/-- `str(row.iloc[i])`: `str()` of the i-th cell, `"nan"` for NaN. -/
def ilocStr (r : Row) (i : Nat) : List Char :=
  match (r : List (List Char × Option (List Char))).get? i with
  | some p => match p.2 with
    | some s => s
    | none => "nan".data
  | none => []

/-- `len(row)`. -/
def rowLen (r : Row) : Nat :=
  (r : List (List Char × Option (List Char))).length

/-- `str()` of a cell value: the string itself, `"nan"` for NaN. -/
def cellStr (cell : Option (List Char)) : List Char :=
  match cell with
  | some s => s
  | none => "nan".data

/-- The name resolution of `extract_concept_data` (lines 223-229): the
mapped `name` column when present (empty for NaN), else the cell at
position 1. -/
def extract_name (r : Row) : List Char :=
  match rowGet r "name".data with
  | some cell =>
    match cell with
    | some s => pyStrip s
    | none => []
  | none => if rowLen r > 1 then pyStrip (ilocStr r 1) else []

/-- The field extraction of `extract_concept_data` (lines 235-288) once the
name has been accepted: named lookup with positional fallback per
canonical field. -/
def extract_fields (r : Row) (name : List Char) : ConceptRec :=
  let change_rate : ℚ :=
    match rowGet r "change_rate".data with
    | some cell => parse_percentage (cellStr cell)
    | none => if rowLen r > 2 then parse_percentage (ilocStr r 2) else 0
  let main_inflow : ℚ :=
    match rowGet r "main_inflow".data with
    | some cell => parse_money_value (cellStr cell)
    | none => 0
  let super_large_inflow : ℚ :=
    match rowGet r "super_large_inflow".data with
    | some cell => parse_money_value (cellStr cell)
    | none => if rowLen r > 4 then parse_money_value (ilocStr r 4) else 0
  let large_inflow : ℚ :=
    match rowGet r "large_inflow".data with
    | some cell => parse_money_value (cellStr cell)
    | none => if rowLen r > 6 then parse_money_value (ilocStr r 6) else 0
  let medium_inflow : ℚ :=
    match rowGet r "medium_inflow".data with
    | some cell => parse_money_value (cellStr cell)
    | none => 0
  let small_inflow : ℚ :=
    match rowGet r "small_inflow".data with
    | some cell => parse_money_value (cellStr cell)
    | none => 0
  let max_stock : List Char :=
    match rowGet r "max_stock".data with
    | some cell =>
      match cell with
      | some s => pyStrip s
      | none => []
    | none => if rowLen r > 9 then pyStrip (ilocStr r 9) else []
  { name := name
    change_rate := change_rate
    main_inflow := main_inflow
    super_large_inflow := super_large_inflow
    large_inflow := large_inflow
    medium_inflow := medium_inflow
    small_inflow := small_inflow
    max_stock := max_stock
    total_inflow := some (super_large_inflow + large_inflow) }

/-- Embedding of `extract_concept_data` (concept_section_screening.py lines
212-292): header-looking or empty names are rejected (`none` models the
`return {}` paths), otherwise the fields are extracted and the derived
`total_inflow` key is stored. -/
def extract_concept_data (r : Row) : Option ConceptRec :=
  let name := extract_name r
  if name = [] ∨ name = "名称".data ∨ name = "板块".data ∨ name = "概念".data ∨
      name = "nan".data then none
  else some (extract_fields r name)

/-! ## History aggregator (concept_section_screening.py lines 355-432) -/

/-- One day's history entry, `{'date': ..., 'concepts': [names], 'count': n}`. -/
structure Snapshot where
  date : List Char
  concepts : List (List Char)
  count : Nat
deriving DecidableEq, Inhabited

/-- The `historical_data` dict: date key / snapshot pairs in insertion
order, keys distinct (dict semantics). -/
abbrev HistoryStore : Type := List (List Char × Snapshot)

/-- Python dict assignment `d[k] = v`: overwrite the entry at an existing
key in place, else append the new key at the end. -/
def dictInsert (k : List Char) (v : Snapshot) : HistoryStore → HistoryStore
  | [] => [(k, v)]
  | p :: rest => if p.1 = k then (k, v) :: rest else p :: dictInsert k v rest

/-- Insert into a sorted list, before the first element `b` with
`le a b`. -/
def insertSorted (le : α → α → Bool) (a : α) : List α → List α
  | [] => [a]
  | b :: l => if le a b then a :: b :: l else b :: insertSorted le a l

/-- Embedding of Python `sorted(l)` on the total preorder whose Bool
comparison is `le`: a stable ascending sort (equal elements keep their
original relative order, as Python guarantees). -/
def pySorted (le : α → α → Bool) : List α → List α
  | [] => []
  | a :: l => insertSorted le a (pySorted le l)

/-- Python string `<=` on date keys: lexicographic by code point. -/
def dateLe (a b : List Char) : Bool := decide (a ≤ b)

/-- Today's entry as `update_historical_data` builds it (lines 374-382):
the run's concept names in ranking order, and their number. -/
def mkSnapshot (current_date : List Char) (concepts : List ConceptRec) : Snapshot :=
  { date := current_date
    concepts := concepts.map ConceptRec.name
    count := (concepts.map ConceptRec.name).length }

/-- Lines 384-390: keep only the last 10 dates by sorted key order; with 10
or fewer dates the store is untouched. -/
def trimTo10 (t : HistoryStore) : HistoryStore :=
  let dates := pySorted dateLe (t.map Prod.fst)
  if dates.length > 10 then
    t.filter (fun p => decide (p.1 ∉ dates.take (dates.length - 10)))
  else t

/-- Pure core of `update_historical_data` (lines 355-402): insert today's
snapshot under today's date, then evict all but the 10 most recent dates.
`current_date` is the `datetime.now().strftime('%Y-%m-%d')` value; the
file read/write around this core is I/O. -/
def update_historical_data (concepts : List ConceptRec) (current_date : List Char)
    (store : HistoryStore) : HistoryStore :=
  trimTo10 (dictInsert current_date (mkSnapshot current_date concepts) store)

/-- `concept_count[concept] = concept_count.get(concept, 0) + 1`: bump the
counter dict at a name, appending a fresh key at the end. -/
def bump (name : List Char) : List (List Char × Nat) → List (List Char × Nat)
  | [] => [(name, 1)]
  | p :: rest => if p.1 = name then (p.1, p.2 + 1) :: rest else p :: bump name rest

/-- The loop of `generate_historical_statistics` lines 418-421: occurrence
counts over the given day name-lists, keys in discovery order. -/
def concept_count (lists : List (List (List Char))) : List (List Char × Nat) :=
  lists.foldl (fun acc l => l.foldl (fun a n => bump n a) acc) []

/-- The comparison of `sorted(concept_count.items(), key=lambda x: x[1],
reverse=True)`: descending by count (stable). -/
def countLe (a b : List Char × Nat) : Bool := decide (b.2 ≤ a.2)

/-- `historical_data[date]['concepts']` (dates come from the store's keys,
so the lookup succeeds; `[]` is a dummy for an absent key). -/
def snapshotConcepts (store : HistoryStore) (d : List Char) : List (List Char) :=
  match store.find? (fun p => decide (p.1 = d)) with
  | some p => p.2.concepts
  | none => []

/-- `sorted(historical_data.keys())[-5:]`: the most recent 5 dates present
(fewer when the history is shorter). -/
def recentDates (store : HistoryStore) : List (List Char) :=
  let dates := pySorted dateLe (store.map Prod.fst)
  dates.drop (dates.length - 5)

/-- Pure core of `generate_historical_statistics` (lines 404-432): count
name occurrences over the recent window, sort descending by count (ties in
discovery order — Python's sort is stable), take the top 10. -/
def generate_historical_statistics (store : HistoryStore) : List (List Char × Nat) :=
  let counts := concept_count ((recentDates store).map (snapshotConcepts store))
  (pySorted countLe counts).take 10

/-- The frequency percentage of `generate_html_content` lines 697-709:
`total_days = min(5, len(historical_data))`, frequency
`count/total_days*100` (the template writes `"0%"` when `total_days` is
0). -/
def frequencyPct (count : Nat) (storeSize : Nat) : ℚ :=
  let total_days := min 5 storeSize
  if total_days > 0 then (count : ℚ) / (total_days : ℚ) * 100 else 0

/-- Number of occurrences of a name across the window's name lists (the
claim-side description the counting loop is checked against). -/
def occurrences (n : List Char) (ls : List (List (List Char))) : Nat :=
  (ls.map (fun l => l.count n)).sum

/-- A demonstration day for concrete history runs. -/
def demoDay (d : String) (cs : List String) : List Char × Snapshot :=
  (d.data, { date := d.data, concepts := cs.map String.data, count := cs.length })

/-- Five days of history in which sector "A" appears every day and "B" on
two days (the worked example of the spec). -/
def demoStore : HistoryStore :=
  [demoDay "d1" ["A"], demoDay "d2" ["A", "B"], demoDay "d3" ["A"],
   demoDay "d4" ["A", "B"], demoDay "d5" ["A"]]

/-! ## Stock pipeline (lianban_scraper.py) -/

/-- A stock record dict.  The keys every adapter writes are plain fields;
keys that only the clist-API adapter writes (`change_amount` ..
`pb_ratio`), and the four keys `enhance_stock_data` adds, are
`Option`-valued with `none` for "key absent". -/
structure Stock where
  code : List Char := []
  name : List Char := []
  price : ℚ := 0
  change_rate : ℚ := 0
  lianban_days : Int := 1
  is_new_stock : Bool := false
  first_limit_time : List Char := []
  last_limit_time : List Char := []
  limit_type : List Char := []
  fund_inflow : ℚ := 0
  market_value : ℚ := 0
  turnover_rate : ℚ := 0
  pe_ratio : ℚ := 0
  is_st : Bool := false
  update_time : List Char := []
  change_amount : Option ℚ := none
  volume : Option ℚ := none
  amount : Option ℚ := none
  amplitude : Option ℚ := none
  pb_ratio : Option ℚ := none
  limit_intensity : Option ℚ := none
  fund_efficiency : Option ℚ := none
  risk_level : Option (List Char) := none
  selection_reason : Option (List Char) := none
deriving DecidableEq

/-- `re.search(r'\*?ST', name, re.IGNORECASE)` succeeds iff the name holds
an `S`/`s` immediately followed by a `T`/`t` (the optional `\*?` prefix
never blocks a match). -/
def contains_st_ci : List Char → Bool
  | a :: b :: rest =>
    ((a = 'S' || a = 's') && (b = 'T' || b = 't')) || contains_st_ci (b :: rest)
  | _ => false

/-- `re.search(r'[\*\?\!]', name)`: the name holds `*`, `?` or `!`. -/
def has_special_char (name : List Char) : Bool :=
  name.any (fun c => c = '*' || c = '?' || c = '!')

/-- The rejection chain of `filter_stocks` (lianban_scraper.py lines
460-491): ST-marked name, special character, non-positive price, absolute
change rate above 20, or non-positive consecutive-limit days. -/
def stock_rejected (s : Stock) : Bool :=
  contains_st_ci s.name || has_special_char s.name ||
    decide (s.price ≤ 0) || decide (|s.change_rate| > 20) ||
    decide (s.lianban_days ≤ 0)

/-- Embedding of `filter_stocks` (lianban_scraper.py lines 450-499): keep
the records that pass every check, setting `is_st` to `False` on each
survivor. -/
def filter_stocks (stocks : List Stock) : List Stock :=
  (stocks.filter (fun s => !(stock_rejected s))).map (fun s => { s with is_st := false })

/-- The risk ladder of `enhance_stock_data` (lianban_scraper.py lines
519-526), first match wins. -/
def risk_level_of (lianban_days : Int) (turnover_rate : ℚ) : List Char :=
  if lianban_days ≥ 5 ∧ turnover_rate > 20 then "高风险".data
  else if lianban_days ≥ 3 ∧ turnover_rate > 15 then "中高风险".data
  else if lianban_days ≥ 2 ∧ turnover_rate > 10 then "中等风险".data
  else "低风险".data

/-- `f"连板{lianban_days}天，{risk_level}"`. -/
def selection_reason_of (lianban_days : Int) (risk : List Char) : List Char :=
  "连板".data ++ (toString lianban_days).data ++ "天，".data ++ risk

/-- The body of the `enhance_stock_data` loop (lianban_scraper.py lines
507-531): `stock.copy()` plus the four computed keys. -/
def enhance_stock (s : Stock) : Stock :=
  { s with
    limit_intensity := some (s.change_rate / 10)
    fund_efficiency := some (if s.market_value > 0 then s.fund_inflow / s.market_value else 0)
    risk_level := some (risk_level_of s.lianban_days s.turnover_rate)
    selection_reason :=
      some (selection_reason_of s.lianban_days (risk_level_of s.lianban_days s.turnover_rate)) }

/-- Embedding of `enhance_stock_data` (lianban_scraper.py lines 501-533). -/
def enhance_stock_data (stocks : List Stock) : List Stock :=
  stocks.map enhance_stock

/-- The three source adapters of `scrape_lianban_stocks`, in priority
order. -/
inductive AdapterId where
  | akshare
  | api
  | webpage
deriving DecidableEq

/-- What one adapter call comes to at its call site in
`scrape_lianban_stocks`: a record list, or an exception the surrounding
`try` catches. -/
abbrev AdapterOutcome : Type := Except Unit (List Stock)

/-- Backup path 2 of `scrape_lianban_stocks` (lianban_scraper.py lines
51-58): a non-empty webpage result is returned; an exception yields `[]`;
an empty list without an exception falls off the end of the function,
which in Python returns `None` — modelled as `Option.none`.  The Bool
trace entry records that the adapter was invoked. -/
def tryWebpage (web : AdapterOutcome) : Option (List Stock) × List AdapterId :=
  match web with
  | .ok s => (if s.isEmpty then none else some s, [.webpage])
  | .error _ => (some [], [.webpage])

/-- Backup path 1 (lines 43-49) followed by backup path 2: a non-empty API
result is returned, anything else falls through to the webpage scrape. -/
def tryApi (api web : AdapterOutcome) : Option (List Stock) × List AdapterId :=
  match api with
  | .ok s =>
    if s.isEmpty then
      let r := tryWebpage web
      (r.1, .api :: r.2)
    else (some s, [.api])
  | .error _ =>
    let r := tryWebpage web
    (r.1, .api :: r.2)

/-- Embedding of `scrape_lianban_stocks` (lianban_scraper.py lines 28-58).
`akAvail` is the module flag `AKSHARE_AVAILABLE`; the three adapter
outcomes are passed in (each adapter's own network and parse behaviour is
summarised by its call-site outcome).  Besides the result — `none` is
Python `None` — the value carries the list of adapters invoked, in
order. -/
def scrape_lianban_stocks (akAvail : Bool) (ak api web : AdapterOutcome) :
    Option (List Stock) × List AdapterId :=
  if akAvail then
    match ak with
    | .ok s =>
      if s.isEmpty then
        let r := tryApi api web
        (r.1, .akshare :: r.2)
      else (some s, [.akshare])
    | .error _ =>
      let r := tryApi api web
      (r.1, .akshare :: r.2)
  else tryApi api web

/-! ## Lemmas about the stable sort -/

theorem insertSorted_perm (le : α → α → Bool) (a : α) (l : List α) :
    List.Perm (insertSorted le a l) (a :: l) := by
  induction l with
  | nil => simp [insertSorted]
  | cons b t ih =>
    simp only [insertSorted]
    by_cases h : le a b = true
    · simp [h]
    · simp only [h, if_false]
      exact (ih.cons b).trans (List.Perm.swap a b t)

theorem pySorted_perm (le : α → α → Bool) (l : List α) :
    List.Perm (pySorted le l) l := by
  induction l with
  | nil => simp [pySorted]
  | cons a t ih =>
    exact (insertSorted_perm le a (pySorted le t)).trans (ih.cons a)

theorem length_pySorted (le : α → α → Bool) (l : List α) :
    (pySorted le l).length = l.length :=
  (pySorted_perm le l).length_eq

theorem mem_pySorted (le : α → α → Bool) (l : List α) (x : α) :
    x ∈ pySorted le l ↔ x ∈ l :=
  (pySorted_perm le l).mem_iff

theorem pairwise_insertSorted {le : α → α → Bool}
    (htotal : ∀ a b, le a b = true ∨ le b a = true)
    (htrans : ∀ a b c, le a b = true → le b c = true → le a c = true)
    (a : α) {l : List α} (h : l.Pairwise (fun x y => le x y = true)) :
    (insertSorted le a l).Pairwise (fun x y => le x y = true) := by
  induction l with
  | nil => simp [insertSorted]
  | cons b t ih =>
    rw [List.pairwise_cons] at h
    simp only [insertSorted]
    by_cases hab : le a b = true
    · simp only [hab, if_true]
      refine List.Pairwise.cons ?_ (List.Pairwise.cons h.1 h.2)
      intro x hx
      rcases List.mem_cons.1 hx with rfl | hx
      · exact hab
      · exact htrans a b x hab (h.1 x hx)
    · have hba : le b a = true := (htotal a b).resolve_left hab
      simp only [hab, if_false]
      refine List.Pairwise.cons ?_ (ih h.2)
      intro x hx
      have hx2 : x ∈ a :: t := (insertSorted_perm le a t).mem_iff.1 hx
      rcases List.mem_cons.1 hx2 with rfl | hx3
      · exact hba
      · exact h.1 x hx3

theorem pairwise_pySorted {le : α → α → Bool}
    (htotal : ∀ a b, le a b = true ∨ le b a = true)
    (htrans : ∀ a b c, le a b = true → le b c = true → le a c = true)
    (l : List α) :
    (pySorted le l).Pairwise (fun x y => le x y = true) := by
  induction l with
  | nil => simp [pySorted]
  | cons a t ih => exact pairwise_insertSorted htotal htrans a ih

theorem filter_insertSorted_pos {le : α → α → Bool} (p : α → Bool) (a : α)
    (l : List α) (ha : p a = true)
    (hall : ∀ b, p b = true → le a b = true) :
    (insertSorted le a l).filter p = a :: l.filter p := by
  induction l with
  | nil => simp [insertSorted, ha]
  | cons b t ih =>
    simp only [insertSorted]
    by_cases hab : le a b = true
    · simp [hab, List.filter_cons, ha]
    · have hb : p b = false := by
        cases hpb : p b with
        | false => rfl
        | true => exact absurd (hall b hpb) hab
      simp [hab, List.filter_cons, hb, ih]

theorem filter_insertSorted_neg {le : α → α → Bool} (p : α → Bool) (a : α)
    (l : List α) (ha : p a = false) :
    (insertSorted le a l).filter p = l.filter p := by
  induction l with
  | nil => simp [insertSorted, ha]
  | cons b t ih =>
    simp only [insertSorted]
    by_cases hab : le a b = true
    · simp [hab, List.filter_cons, ha]
    · cases hb : p b with
      | false => simp [hab, List.filter_cons, hb, ih]
      | true => simp [hab, List.filter_cons, hb, ih]

/-- Stability of the counting sort: the entries of one count class come out
in their original order. -/
theorem filter_pySorted_countLe (c : Nat) (l : List (List Char × Nat)) :
    (pySorted countLe l).filter (fun q => decide (q.2 = c)) =
      l.filter (fun q => decide (q.2 = c)) := by
  induction l with
  | nil => rfl
  | cons a t ih =>
    simp only [pySorted]
    by_cases hc : a.2 = c
    · rw [filter_insertSorted_pos _ a _ (by simp [hc]) ?_, ih]
      · simp [List.filter_cons, hc]
      · intro b hb
        simp only [decide_eq_true_eq] at hb
        simp [countLe, hb, hc]
    · rw [filter_insertSorted_neg _ a _ (by simp [hc]), ih]
      simp [List.filter_cons, hc]

/-! ## Lemmas about the counting dict -/

/-- First-match count lookup in the counter dict (0 for an absent key). -/
def lookupCount (n : List Char) : List (List Char × Nat) → Nat
  | [] => 0
  | p :: rest => if p.1 = n then p.2 else lookupCount n rest

theorem lookupCount_bump (m n : List Char) (l : List (List Char × Nat)) :
    lookupCount m (bump n l) =
      lookupCount m l + (if n = m then 1 else 0) := by
  induction l with
  | nil =>
    by_cases h : n = m <;> simp [bump, lookupCount, h]
  | cons p t ih =>
    simp only [bump]
    by_cases hpn : p.1 = n
    · subst hpn
      simp only [if_pos rfl]
      by_cases hpm : p.1 = m
      · simp [lookupCount, hpm]
      · simp [lookupCount, hpm]
    · simp only [if_neg hpn]
      by_cases hpm : p.1 = m
      · have hnm : ¬ n = m := fun h => hpn (hpm.trans h.symm)
        simp [lookupCount, hpm, hnm]
      · simp [lookupCount, hpm, ih]

theorem lookupCount_foldl_names (m : List Char) (names : List (List Char)) :
    ∀ acc, lookupCount m (names.foldl (fun a n => bump n a) acc) =
      lookupCount m acc + names.count m := by
  induction names with
  | nil => intro acc; simp
  | cons n t ih =>
    intro acc
    simp only [List.foldl_cons, ih, lookupCount_bump]
    rcases eq_or_ne m n with h | h
    · subst h
      rw [List.count_cons_self, if_pos rfl]
      omega
    · rw [List.count_cons_of_ne h, if_neg (Ne.symm h)]
      omega

theorem lookupCount_concept_count (m : List Char) (ls : List (List (List Char))) :
    lookupCount m (concept_count ls) = occurrences m ls := by
  suffices h : ∀ acc,
      lookupCount m (ls.foldl (fun acc l => l.foldl (fun a n => bump n a) acc) acc) =
        lookupCount m acc + occurrences m ls by
    simpa [concept_count, lookupCount] using h []
  induction ls with
  | nil => intro acc; simp [occurrences]
  | cons l t ih =>
    intro acc
    simp only [List.foldl_cons, ih, lookupCount_foldl_names, occurrences, List.map_cons,
      List.sum_cons]
    omega

theorem bump_keys (n : List Char) (l : List (List Char × Nat)) :
    (bump n l).map Prod.fst =
      if n ∈ l.map Prod.fst then l.map Prod.fst else l.map Prod.fst ++ [n] := by
  induction l with
  | nil => simp [bump]
  | cons p t ih =>
    simp only [bump]
    by_cases hpn : p.1 = n
    · subst hpn
      simp
    · have : ¬ n = p.1 := fun h => hpn h.symm
      by_cases hmem : n ∈ t.map Prod.fst <;>
        simp [hpn, this, hmem, ih]

theorem bump_keys_nodup (n : List Char) (l : List (List Char × Nat))
    (h : (l.map Prod.fst).Nodup) : ((bump n l).map Prod.fst).Nodup := by
  rw [bump_keys]
  by_cases hmem : n ∈ l.map Prod.fst
  · simpa [hmem] using h
  · simp [hmem, List.nodup_append, h]

theorem concept_count_keys_nodup (ls : List (List (List Char))) :
    ((concept_count ls).map Prod.fst).Nodup := by
  suffices h : ∀ (acc : List (List Char × Nat)), (acc.map Prod.fst).Nodup →
      ((ls.foldl (fun acc l => l.foldl (fun a n => bump n a) acc) acc).map Prod.fst).Nodup by
    exact h [] (by simp)
  have hnames : ∀ (names : List (List Char)) (acc : List (List Char × Nat)),
      (acc.map Prod.fst).Nodup →
      ((names.foldl (fun a n => bump n a) acc).map Prod.fst).Nodup := by
    intro names
    induction names with
    | nil => intro acc h; simpa using h
    | cons n t ih => intro acc h; exact ih _ (bump_keys_nodup n acc h)
  induction ls with
  | nil => intro acc h; simpa using h
  | cons l t ih => intro acc h; exact ih _ (hnames l acc h)

theorem lookupCount_of_mem (l : List (List Char × Nat))
    (h : (l.map Prod.fst).Nodup) (p : List Char × Nat) (hp : p ∈ l) :
    lookupCount p.1 l = p.2 := by
  induction l with
  | nil => cases hp
  | cons q t ih =>
    rcases List.mem_cons.1 hp with rfl | hpt
    · simp [lookupCount]
    · have hq : ¬ q.1 = p.1 := by
        intro hEq
        have : p.1 ∈ t.map Prod.fst := List.mem_map_of_mem Prod.fst hpt
        rw [List.map_cons, List.nodup_cons] at h
        exact h.1 (hEq ▸ this)
      rw [List.map_cons, List.nodup_cons] at h
      simp only [lookupCount, if_neg hq]
      exact ih h.2 hpt

/-! ## Lemmas about the history store -/

theorem dictInsert_keys (k : List Char) (v : Snapshot) (s : HistoryStore) :
    (dictInsert k v s).map Prod.fst =
      if k ∈ s.map Prod.fst then s.map Prod.fst else s.map Prod.fst ++ [k] := by
  induction s with
  | nil => simp [dictInsert]
  | cons p t ih =>
    simp only [dictInsert]
    by_cases hpk : p.1 = k
    · subst hpk
      simp
    · have : ¬ k = p.1 := fun h => hpk h.symm
      by_cases hmem : k ∈ t.map Prod.fst <;>
        simp [hpk, this, hmem, ih]

theorem dictInsert_length (k : List Char) (v : Snapshot) (s : HistoryStore) :
    (dictInsert k v s).length =
      if k ∈ s.map Prod.fst then s.length else s.length + 1 := by
  have h := congrArg List.length (dictInsert_keys k v s)
  simp only [List.length_map] at h
  rw [h]
  by_cases hmem : k ∈ s.map Prod.fst <;> simp [hmem]

theorem dictInsert_keys_nodup (k : List Char) (v : Snapshot) (s : HistoryStore)
    (h : (s.map Prod.fst).Nodup) : ((dictInsert k v s).map Prod.fst).Nodup := by
  rw [dictInsert_keys]
  by_cases hmem : k ∈ s.map Prod.fst
  · simpa [hmem] using h
  · simp [hmem, List.nodup_append, h]

theorem mem_dictInsert_keys (k : List Char) (v : Snapshot) (s : HistoryStore) :
    k ∈ (dictInsert k v s).map Prod.fst := by
  rw [dictInsert_keys]
  by_cases hmem : k ∈ s.map Prod.fst <;> simp [hmem]

theorem map_fst_filter_keys (q : List Char → Bool) (t : HistoryStore) :
    (t.filter (fun p => q p.1)).map Prod.fst = (t.map Prod.fst).filter q := by
  induction t with
  | nil => rfl
  | cons p r ih =>
    by_cases hq : q p.1 = true <;> simp [List.filter_cons, hq, ih]

theorem dateLe_total (a b : List Char) : dateLe a b = true ∨ dateLe b a = true := by
  simp only [dateLe, decide_eq_true_eq]
  exact le_total a b

theorem dateLe_trans (a b c : List Char) :
    dateLe a b = true → dateLe b c = true → dateLe a c = true := by
  simp only [dateLe, decide_eq_true_eq]
  exact le_trans

theorem trimTo10_eq_self (t : HistoryStore) (h : t.length ≤ 10) : trimTo10 t = t := by
  have hlen : (pySorted dateLe (t.map Prod.fst)).length = t.length := by
    rw [length_pySorted, List.length_map]
  simp only [trimTo10]
  rw [if_neg]
  omega

theorem trimTo10_length (t : HistoryStore) (h : (t.map Prod.fst).Nodup) :
    (trimTo10 t).length = min t.length 10 := by
  by_cases hle : t.length ≤ 10
  · rw [trimTo10_eq_self t hle]
    omega
  · have hlen : (pySorted dateLe (t.map Prod.fst)).length = t.length := by
      rw [length_pySorted, List.length_map]
    simp only [trimTo10]
    rw [if_pos (by omega)]
    have hperm : List.Perm (pySorted dateLe (t.map Prod.fst)) (t.map Prod.fst) :=
      pySorted_perm dateLe (t.map Prod.fst)
    have hnd : (pySorted dateLe (t.map Prod.fst)).Nodup := hperm.nodup_iff.2 h
    set dates := pySorted dateLe (t.map Prod.fst) with hdates
    set olds := dates.take (dates.length - 10) with holds
    have hsplit : olds ++ dates.drop (dates.length - 10) = dates :=
      List.take_append_drop _ dates
    have hdisj : ∀ a ∈ dates.drop (dates.length - 10), a ∉ olds := by
      rw [← hsplit] at hnd
      have := (List.nodup_append.1 hnd).2.2
      intro a ha hmem
      exact this hmem ha
    have hcount : (t.filter (fun p => decide (p.1 ∉ olds))).length =
        ((t.map Prod.fst).filter (fun k => decide (k ∉ olds))).length := by
      rw [← map_fst_filter_keys (fun k => decide (k ∉ olds)) t, List.length_map]
    rw [hcount, ← hperm.filter _ |>.length_eq]
    rw [← hsplit, List.filter_append]
    have h1 : olds.filter (fun k => decide (k ∉ olds)) = [] := by
      apply List.filter_eq_nil_iff.2
      intro a ha
      simp [ha]
    have h2 : (dates.drop (dates.length - 10)).filter (fun k => decide (k ∉ olds)) =
        dates.drop (dates.length - 10) := by
      apply List.filter_eq_self.2
      intro a ha
      simp [hdisj a ha]
    rw [h1, h2]
    simp only [List.nil_append, List.length_drop]
    omega

theorem trimTo10_keys_nodup (t : HistoryStore) (h : (t.map Prod.fst).Nodup) :
    ((trimTo10 t).map Prod.fst).Nodup := by
  simp only [trimTo10]
  by_cases hgt : (pySorted dateLe (t.map Prod.fst)).length > 10
  · rw [if_pos hgt]
    exact h.sublist ((List.filter_sublist t).map Prod.fst)
  · rw [if_neg hgt]
    exact h

theorem update_historical_data_length (c : List ConceptRec) (d : List Char)
    (s : HistoryStore) (h : (s.map Prod.fst).Nodup) :
    (update_historical_data c d s).length =
      min (if d ∈ s.map Prod.fst then s.length else s.length + 1) 10 := by
  unfold update_historical_data
  rw [trimTo10_length _ (dictInsert_keys_nodup d _ s h), dictInsert_length]

theorem update_historical_data_keys_nodup (c : List ConceptRec) (d : List Char)
    (s : HistoryStore) (h : (s.map Prod.fst).Nodup) :
    ((update_historical_data c d s).map Prod.fst).Nodup :=
  trimTo10_keys_nodup _ (dictInsert_keys_nodup d _ s h)

/-- Size of the store after a second same-day update: unchanged. -/
theorem update_historical_data_rerun_length (c : List ConceptRec) (d : List Char)
    (s : HistoryStore) (h : (s.map Prod.fst).Nodup) :
    (update_historical_data c d (update_historical_data c d s)).length =
      (update_historical_data c d s).length := by
  set s1 := update_historical_data c d s with hs1
  have h1 : (s1.map Prod.fst).Nodup := update_historical_data_keys_nodup c d s h
  have hlen1 : s1.length ≤ 10 := by
    rw [hs1, update_historical_data_length c d s h]
    omega
  rw [update_historical_data_length c d s1 h1]
  by_cases hmem : d ∈ s1.map Prod.fst
  · rw [if_pos hmem]
    omega
  · -- d was evicted, which can only happen when the trim ran, leaving 10 keys
    rw [if_neg hmem]
    have hd1 : d ∈ (dictInsert d (mkSnapshot d c) s).map Prod.fst :=
      mem_dictInsert_keys d _ s
    have hs1ten : s1.length = 10 := by
      by_cases hle : (dictInsert d (mkSnapshot d c) s).length ≤ 10
      · exfalso
        apply hmem
        rw [hs1, update_historical_data, trimTo10_eq_self _ hle]
        exact hd1
      · rw [hs1, update_historical_data,
          trimTo10_length _ (dictInsert_keys_nodup d _ s h)]
        omega
    omega

/-- Inserting an 11th distinct date: the store ends at 10 keys, and the key
set loses exactly the lexicographically least of the 11 dates. -/
theorem update_historical_data_evicts_oldest (c : List ConceptRec) (d : List Char)
    (s : HistoryStore) (h : (s.map Prod.fst).Nodup)
    (hlen : s.length = 10) (hd : d ∉ s.map Prod.fst) :
    (update_historical_data c d s).length = 10 ∧
    ∃ m, m ∈ (dictInsert d (mkSnapshot d c) s).map Prod.fst ∧
      (∀ k ∈ (dictInsert d (mkSnapshot d c) s).map Prod.fst, m ≤ k) ∧
      (update_historical_data c d s).map Prod.fst =
        ((dictInsert d (mkSnapshot d c) s).map Prod.fst).filter
          (fun k => decide (k ≠ m)) := by
  have hlen1 : (dictInsert d (mkSnapshot d c) s).length = 11 := by
    rw [dictInsert_length, if_neg hd, hlen]
  have hkeyslen : ((dictInsert d (mkSnapshot d c) s).map Prod.fst).length = 11 := by
    rw [List.length_map]
    exact hlen1
  set store1 := dictInsert d (mkSnapshot d c) s with hstore1
  set dates := pySorted dateLe (store1.map Prod.fst) with hdatesdef
  have hperm : List.Perm dates (store1.map Prod.fst) := pySorted_perm _ _
  have hdlen : dates.length = 11 := by rw [hperm.length_eq, hkeyslen]
  obtain ⟨m, rest, hcons⟩ : ∃ m rest, dates = m :: rest := by
    cases hd2 : dates with
    | nil => rw [hd2] at hdlen; simp at hdlen
    | cons a r => exact ⟨a, r, rfl⟩
  constructor
  · rw [update_historical_data_length c d s h, if_neg hd, hlen]
    omega
  refine ⟨m, ?_, ?_, ?_⟩
  · exact hperm.mem_iff.1 (hcons ▸ List.mem_cons_self m rest)
  · intro k hk
    have hkd : k ∈ dates := hperm.mem_iff.2 hk
    rw [hcons] at hkd
    rcases List.mem_cons.1 hkd with rfl | hkr
    · exact le_refl k
    · have hpw := pairwise_pySorted dateLe_total dateLe_trans (store1.map Prod.fst)
      rw [← hdatesdef, hcons, List.pairwise_cons] at hpw
      have := hpw.1 k hkr
      simpa [dateLe, decide_eq_true_eq] using this
  · have holds : dates.take (dates.length - 10) = [m] := by
      rw [hdlen, hcons]
      rfl
    unfold update_historical_data
    rw [← hstore1]
    simp only [trimTo10]
    rw [← hdatesdef, holds, if_pos (by omega)]
    rw [map_fst_filter_keys (fun k => decide (k ∉ [m])) store1]
    apply List.filter_congr
    intro a _
    simp [List.mem_singleton]

/-! ## Lemmas about the frequency statistics -/

theorem countLe_total (a b : List Char × Nat) :
    countLe a b = true ∨ countLe b a = true := by
  simp only [countLe, decide_eq_true_eq]
  exact (le_total b.2 a.2)

theorem countLe_trans (a b c : List Char × Nat) :
    countLe a b = true → countLe b c = true → countLe a c = true := by
  simp only [countLe, decide_eq_true_eq]
  intro h1 h2
  exact le_trans h2 h1

theorem stats_count_correct (store : HistoryStore) (p : List Char × Nat)
    (hp : p ∈ generate_historical_statistics store) :
    p.2 = occurrences p.1 ((recentDates store).map (snapshotConcepts store)) := by
  have h1 : p ∈ pySorted countLe
      (concept_count ((recentDates store).map (snapshotConcepts store))) :=
    (List.take_sublist 10 _).subset hp
  have h2 : p ∈ concept_count ((recentDates store).map (snapshotConcepts store)) :=
    (mem_pySorted _ _ p).1 h1
  have h3 := lookupCount_of_mem _ (concept_count_keys_nodup _) p h2
  rw [← h3, lookupCount_concept_count]

theorem stats_sorted_desc (store : HistoryStore) :
    (generate_historical_statistics store).Pairwise (fun a b => b.2 ≤ a.2) := by
  have hpw := pairwise_pySorted countLe_total countLe_trans
    (concept_count ((recentDates store).map (snapshotConcepts store)))
  have hpw2 := hpw.imp (fun h => by
    simpa [countLe, decide_eq_true_eq] using h)
  unfold generate_historical_statistics
  exact hpw2.sublist (List.take_sublist 10 _)

theorem stats_length_le (store : HistoryStore) :
    (generate_historical_statistics store).length ≤ 10 := by
  unfold generate_historical_statistics
  exact List.length_take_le 10 _

/-! ## The ST name predicate -/

/-- The claim-side reading of the ST marker: somewhere in the name an
`S`/`s` is immediately followed by a `T`/`t`. -/
def st_marked (name : List Char) : Prop :=
  ∃ (pre suf : List Char) (a b : Char), name = pre ++ a :: b :: suf ∧
    (a = 'S' ∨ a = 's') ∧ (b = 'T' ∨ b = 't')

theorem contains_st_ci_iff (name : List Char) :
    contains_st_ci name = true ↔ st_marked name := by
  induction name with
  | nil =>
    constructor
    · intro h
      exact absurd h (by simp [contains_st_ci])
    · rintro ⟨pre, suf, a, b, habs, -, -⟩
      have hl := congrArg List.length habs
      simp [List.length_append] at hl
      omega
  | cons x tail ih =>
    cases tail with
    | nil =>
      constructor
      · intro h
        exact absurd h (by simp [contains_st_ci])
      · rintro ⟨pre, suf, a, b, habs, -, -⟩
        have hl := congrArg List.length habs
        simp [List.length_append] at hl
        omega
    | cons y rest =>
      simp only [contains_st_ci, Bool.or_eq_true, Bool.and_eq_true]
      constructor
      · rintro (⟨ha, hb⟩ | hrec)
        · have ha2 : x = 'S' ∨ x = 's' := by simpa using ha
          have hb2 : y = 'T' ∨ y = 't' := by simpa using hb
          exact ⟨[], rest, x, y, by simp, ha2, hb2⟩
        · obtain ⟨pre, suf, a, b, habs, ha, hb⟩ := ih.1 hrec
          exact ⟨x :: pre, suf, a, b, by simp [habs], ha, hb⟩
      · rintro ⟨pre, suf, a, b, habs, ha, hb⟩
        cases pre with
        | nil =>
          simp only [List.nil_append, List.cons.injEq] at habs
          obtain ⟨rfl, rfl, -⟩ := habs
          left
          constructor
          · rcases ha with rfl | rfl <;> simp
          · rcases hb with rfl | rfl <;> simp
        | cons c pre2 =>
          simp only [List.cons_append, List.cons.injEq] at habs
          right
          exact ih.2 ⟨pre2, suf, a, b, habs.2, ha, hb⟩

/-! ## The rejection predicate of the stock filter -/

/-- The claim-side rejection condition of C6. -/
def RejectSpec (s : Stock) : Prop :=
  st_marked s.name ∨ (∃ ch ∈ s.name, ch = '*' ∨ ch = '?' ∨ ch = '!') ∨
    s.price ≤ 0 ∨ |s.change_rate| > 20 ∨ s.lianban_days ≤ 0

theorem stock_rejected_iff (s : Stock) : stock_rejected s = true ↔ RejectSpec s := by
  simp only [stock_rejected, RejectSpec, contains_st_ci_iff, has_special_char,
    List.any_eq_true, Bool.or_eq_true, decide_eq_true_eq, or_assoc]

theorem mem_filter_stocks (l : List Stock) (s2 : Stock) :
    s2 ∈ filter_stocks l ↔
      ∃ s, s ∈ l ∧ ¬ RejectSpec s ∧ s2 = { s with is_st := false } := by
  simp only [filter_stocks, List.mem_map, List.mem_filter]
  constructor
  · rintro ⟨s, ⟨hsl, hkeep⟩, rfl⟩
    refine ⟨s, hsl, ?_, rfl⟩
    intro hr
    rw [← stock_rejected_iff] at hr
    simp [hr] at hkeep
  · rintro ⟨s, hsl, hnr, rfl⟩
    refine ⟨s, ⟨hsl, ?_⟩, rfl⟩
    have h0 : stock_rejected s = false := by
      cases h : stock_rejected s
      · rfl
      · exact absurd ((stock_rejected_iff s).1 h) hnr
    simp [h0]

/-! ## Concrete inputs used by the claim theorems -/

/-- A diff item whose super-large inflow is 1 and large inflow 2. -/
def c1Item : ApiItem := { f66 := some 1, f72 := some 2 }

/-- A canned provider response of 10 sector items. -/
def c1Diff : List ApiItem := c1Item :: List.replicate 9 {}

/-- A benign concrete stock record. -/
def c3Stock : Stock := { code := "600000".data, name := "测试".data, price := 10 }

/-! ## Claim theorems -/

/-- C1 counterexample: over a provider response of 10 sector items the
API pipeline emits 10 records, but the records carry no `total_inflow`
key, so "the total_inflow field equals super_large_inflow + large_inflow"
fails on the first record (whose inflows are 1 and 2). -/
theorem C1_total_inflow_counterexample :
    (get_top_concept_sections 0 c1Diff).length = 10 ∧
    ¬ (∀ r ∈ get_top_concept_sections 0 c1Diff,
        r.total_inflow = some (r.super_large_inflow + r.large_inflow)) := by
  constructor
  · rfl
  · intro hall
    have hmem : conceptOfApiItem c1Item ∈ get_top_concept_sections 0 c1Diff :=
      List.mem_cons_self _ _
    have h := hall _ hmem
    have hnone : (conceptOfApiItem c1Item).total_inflow = none := rfl
    rw [hnone] at h
    exact Option.noConfusion h

/-- C1 (amended): a successful run over a 10-item response yields exactly
10 records; those API-path records store no `total_inflow` key at all; the
invariant `total_inflow = super_large_inflow + large_inflow` holds of
every record the (unreachable) table-row extractor produces. -/
theorem C1_snapshot_ten_records (rc : Int) (diff : List ApiItem)
    (hrc : rc = 0) (hlen : diff.length = 10) :
    (get_top_concept_sections rc diff).length = 10 ∧
    (∀ r ∈ get_top_concept_sections rc diff, r.total_inflow = none) ∧
    (∀ (row : Row) (rec : ConceptRec), extract_concept_data row = some rec →
      rec.total_inflow = some (rec.super_large_inflow + rec.large_inflow)) := by
  subst hrc
  have hne : diff ≠ [] := by
    intro h
    rw [h] at hlen
    simp at hlen
  have hcond : ¬ ((0 : Int) ≠ 0 ∨ diff = []) := by simp [hne]
  refine ⟨?_, ?_, ?_⟩
  · unfold get_top_concept_sections
    rw [if_neg hcond]
    simp [List.length_take, hlen]
  · intro r hr
    unfold get_top_concept_sections at hr
    rw [if_neg hcond] at hr
    obtain ⟨item, -, rfl⟩ := List.mem_map.1 hr
    rfl
  · intro row rec h
    simp only [extract_concept_data] at h
    split at h
    · exact absurd h (by simp)
    · injection h with h2
      subst h2
      rfl

/-- C1 witness: the amended theorem applied to the canned 10-item
response. -/
theorem C1_snapshot_ten_records_witness :
    (get_top_concept_sections 0 c1Diff).length = 10 :=
  (C1_snapshot_ten_records 0 c1Diff rfl (by decide)).1

/-- C2: the code evaluated at the claim's inputs.  `"15000万"` parses to
15000, not the claimed 1.5: line 323 already stripped the `万` before
line 325 tests `'万' in value`, so the divide-by-10000 branch is dead and
the documented conversion to the major unit never happens. -/
theorem C2_parse_money_value_eval :
    parse_money_value "15000万".data = 15000 ∧
    parse_money_value "1.5亿".data = 3/2 ∧
    parse_money_value "abc".data = 0 := by
  refine ⟨?_, ?_, rfl⟩
  · show qOfRep (15000, 0) = 15000
    norm_num [qOfRep]
  · show qOfRep (15, 1) = 3/2
    norm_num [qOfRep]

/-- C3 counterexample: when every adapter returns an empty list without
raising, `scrape_lianban_stocks` falls off the end of the function and
returns `None` (modelled `none`), not the empty list the claim states. -/
theorem C3_all_empty_counterexample :
    (scrape_lianban_stocks true (.ok []) (.ok []) (.ok [])).1 = none ∧
    (scrape_lianban_stocks true (.ok []) (.ok []) (.ok [])).1 ≠ some [] := by
  decide

/-- C3 (amended): the adapters run in the fixed order akshare, API,
webpage; the first non-empty list is returned and later adapters are not
invoked (the trace component lists the adapters actually called); when
every adapter raises or yields no records, the result is `[]` if the
webpage adapter raised, and Python `None` (still no exception, but not a
list) if the webpage adapter returned an empty list; with akshare
unavailable the akshare stage is skipped entirely. -/
theorem C3_adapter_fallback :
    (∀ (s : List Stock) (ak api web : AdapterOutcome), s ≠ [] → ak = .ok s →
      scrape_lianban_stocks true ak api web = (some s, [.akshare])) ∧
    (∀ (s : List Stock) (ak api web : AdapterOutcome),
      (ak = .error () ∨ ak = .ok []) → s ≠ [] → api = .ok s →
      scrape_lianban_stocks true ak api web = (some s, [.akshare, .api])) ∧
    (∀ (s : List Stock) (ak api web : AdapterOutcome),
      (ak = .error () ∨ ak = .ok []) → (api = .error () ∨ api = .ok []) →
      s ≠ [] → web = .ok s →
      scrape_lianban_stocks true ak api web = (some s, [.akshare, .api, .webpage])) ∧
    (∀ (ak api : AdapterOutcome),
      (ak = .error () ∨ ak = .ok []) → (api = .error () ∨ api = .ok []) →
      scrape_lianban_stocks true ak api (.error ()) =
        (some [], [.akshare, .api, .webpage])) ∧
    (∀ (ak api : AdapterOutcome),
      (ak = .error () ∨ ak = .ok []) → (api = .error () ∨ api = .ok []) →
      scrape_lianban_stocks true ak api (.ok []) =
        (none, [.akshare, .api, .webpage])) ∧
    (∀ (ak api web : AdapterOutcome),
      scrape_lianban_stocks false ak api web = tryApi api web) := by
  have hne : ∀ (s : List Stock), s ≠ [] → s.isEmpty = false := by
    intro s hs
    cases s with
    | nil => exact absurd rfl hs
    | cons a t => rfl
  refine ⟨?_, ?_, ?_, ?_, ?_, ?_⟩
  · rintro s ak api web hs rfl
    simp [scrape_lianban_stocks, hne s hs]
  · rintro s ak api web (rfl | rfl) hs rfl <;>
      simp [scrape_lianban_stocks, tryApi, hne s hs]
  · rintro s ak api web (rfl | rfl) (rfl | rfl) hs rfl <;>
      simp [scrape_lianban_stocks, tryApi, tryWebpage, hne s hs]
  · rintro ak api (rfl | rfl) (rfl | rfl) <;>
      simp [scrape_lianban_stocks, tryApi, tryWebpage]
  · rintro ak api (rfl | rfl) (rfl | rfl) <;>
      simp [scrape_lianban_stocks, tryApi, tryWebpage]
  · intro ak api web
    rfl

/-- C3 witness: a non-empty akshare result is accepted and the two backup
adapters are never invoked. -/
theorem C3_adapter_fallback_witness :
    scrape_lianban_stocks true (.ok [c3Stock]) (.error ()) (.error ()) =
      (some [c3Stock], [.akshare]) :=
  C3_adapter_fallback.1 [c3Stock] (.ok [c3Stock]) (.error ()) (.error ())
    (by simp) rfl

/-- Ten days of prior history for the C4 witness. -/
def c4Store : HistoryStore :=
  [demoDay "2024-01-01" ["A"], demoDay "2024-01-02" ["A"],
   demoDay "2024-01-03" ["A"], demoDay "2024-01-04" ["A"],
   demoDay "2024-01-05" ["A"], demoDay "2024-01-06" ["A"],
   demoDay "2024-01-07" ["A"], demoDay "2024-01-08" ["A"],
   demoDay "2024-01-09" ["A"], demoDay "2024-01-10" ["A"]]

/-- C4: today's snapshot is inserted under today's date with dict
(overwrite) semantics, then all but the 10 most recent dates are evicted:
the updated store holds at most 10 dates; an existing date is overwritten
(size unchanged) while a fresh date adds one key before the trim; running
the same day's update again leaves the size unchanged; and inserting an
11th distinct date leaves 10 dates, dropping exactly the
lexicographically oldest of the 11. -/
theorem C4_history_update (concepts : List ConceptRec) (d : List Char)
    (store : HistoryStore) (h : (store.map Prod.fst).Nodup) :
    (update_historical_data concepts d store).length ≤ 10 ∧
    ((dictInsert d (mkSnapshot d concepts) store).map Prod.fst =
      if d ∈ store.map Prod.fst then store.map Prod.fst
      else store.map Prod.fst ++ [d]) ∧
    (update_historical_data concepts d (update_historical_data concepts d store)).length =
      (update_historical_data concepts d store).length ∧
    (store.length = 10 → d ∉ store.map Prod.fst →
      (update_historical_data concepts d store).length = 10 ∧
      ∃ m, m ∈ (dictInsert d (mkSnapshot d concepts) store).map Prod.fst ∧
        (∀ k ∈ (dictInsert d (mkSnapshot d concepts) store).map Prod.fst, m ≤ k) ∧
        (update_historical_data concepts d store).map Prod.fst =
          ((dictInsert d (mkSnapshot d concepts) store).map Prod.fst).filter
            (fun k => decide (k ≠ m))) := by
  refine ⟨?_, dictInsert_keys d _ store, ?_, ?_⟩
  · rw [update_historical_data_length concepts d store h]
    omega
  · exact update_historical_data_rerun_length concepts d store h
  · intro hlen hd
    exact update_historical_data_evicts_oldest concepts d store h hlen hd

/-- C4 witness: the theorem applied to a concrete 10-day store and an
11th fresh date. -/
theorem C4_history_update_witness :
    (update_historical_data [] "2024-01-11".data c4Store).length ≤ 10 :=
  (C4_history_update [] "2024-01-11".data c4Store (by decide)).1

/-- C5: the frequency ranking counts each name's occurrences over the
snapshots of the most recent 5 dates present, is sorted descending by
count with ties kept in discovery order (the stable-sort filter identity),
has at most 10 entries, and on the spec's worked example — "A" on all 5
days, "B" on 2 — ranks A before B; the report's frequency percentages for
those counts are 100 and 40. -/
theorem C5_frequency_ranking :
    (∀ (store : HistoryStore) (p : List Char × Nat),
      p ∈ generate_historical_statistics store →
      p.2 = occurrences p.1 ((recentDates store).map (snapshotConcepts store))) ∧
    (∀ store : HistoryStore,
      (generate_historical_statistics store).Pairwise (fun a b => b.2 ≤ a.2)) ∧
    (∀ store : HistoryStore, (generate_historical_statistics store).length ≤ 10) ∧
    (∀ (store : HistoryStore) (n : Nat),
      (pySorted countLe
          (concept_count ((recentDates store).map (snapshotConcepts store)))).filter
          (fun q => decide (q.2 = n)) =
        (concept_count ((recentDates store).map (snapshotConcepts store))).filter
          (fun q => decide (q.2 = n))) ∧
    (recentDates demoStore).length = 5 ∧
    generate_historical_statistics demoStore = [("A".data, 5), ("B".data, 2)] ∧
    frequencyPct 5 demoStore.length = 100 ∧
    frequencyPct 2 demoStore.length = 40 := by
  refine ⟨stats_count_correct, stats_sorted_desc, stats_length_le,
    fun store n => filter_pySorted_countLe n _, by decide, by decide, ?_, ?_⟩
  · norm_num [frequencyPct, demoStore, demoDay]
  · norm_num [frequencyPct, demoStore, demoDay]

/-- C5 witness: the count of "A" over the example window is its number of
occurrences there. -/
theorem C5_frequency_ranking_witness :
    (5 : Nat) = occurrences "A".data
      ((recentDates demoStore).map (snapshotConcepts demoStore)) :=
  C5_frequency_ranking.1 demoStore ("A".data, 5) (by decide)

/-- A record at the strict boundary: change rate exactly 20. -/
def c6Keep : Stock :=
  { code := "600001".data, name := "测试".data, price := 10, change_rate := 20,
    lianban_days := 2 }

/-- The same record with change rate 20.01. -/
def c6Drop : Stock :=
  { code := "600001".data, name := "测试".data, price := 10,
    change_rate := 2001/100, lianban_days := 2 }

/-- C6: a stock is dropped iff its name holds a case-insensitive "ST", or
holds one of `*`/`?`/`!`, or its price is ≤ 0, or |change rate| > 20
(strictly), or its consecutive-limit days are ≤ 0; survivors come out in
order with `is_st` forced to false; a record named "*ST中芯" is always
dropped whatever its other fields; change rate 20.0 is kept and 20.01
dropped. -/
theorem C6_filter_stocks :
    (∀ (l : List Stock) (s2 : Stock),
      s2 ∈ filter_stocks l ↔
        ∃ s, s ∈ l ∧ ¬ RejectSpec s ∧ s2 = { s with is_st := false }) ∧
    (∀ (l : List Stock) (s2 : Stock), s2 ∈ filter_stocks l → s2.is_st = false) ∧
    (∀ s : Stock, s.name = "*ST中芯".data → filter_stocks [s] = []) ∧
    filter_stocks [c6Keep] = [{ c6Keep with is_st := false }] ∧
    filter_stocks [c6Drop] = [] := by
  refine ⟨mem_filter_stocks, ?_, ?_, ?_, ?_⟩
  · intro l s2 h
    obtain ⟨s, -, -, rfl⟩ := (mem_filter_stocks l s2).1 h
    rfl
  · intro s hn
    have hst : contains_st_ci s.name = true := by
      rw [hn]
      decide
    have hrej : stock_rejected s = true := by
      simp [stock_rejected, hst]
    simp [filter_stocks, hrej]
  · have hk : stock_rejected c6Keep = false := by
      simp only [stock_rejected, c6Keep, Bool.or_eq_false_iff, decide_eq_false_iff_not]
      refine ⟨⟨⟨⟨by decide, by decide⟩, by norm_num⟩, ?_⟩, by norm_num⟩
      rw [show |(20 : ℚ)| = 20 from abs_of_pos (by norm_num)]
      norm_num
    simp [filter_stocks, hk]
  · have hd : stock_rejected c6Drop = true := by
      have habs : |(2001/100 : ℚ)| > 20 := by
        rw [show |(2001/100 : ℚ)| = 2001/100 from abs_of_pos (by norm_num)]
        norm_num
      simp [stock_rejected, c6Drop, habs]
    simp [filter_stocks, hd]

/-- C6 witness: the membership characterisation applied to the concrete
boundary record. -/
theorem C6_filter_stocks_witness :
    ({ c6Keep with is_st := false } : Stock) ∈ filter_stocks [c6Keep] := by
  apply (C6_filter_stocks.1 [c6Keep] { c6Keep with is_st := false }).2
  refine ⟨c6Keep, List.mem_cons_self _ _, ?_, rfl⟩
  intro hr
  rw [← stock_rejected_iff] at hr
  have hk : stock_rejected c6Keep = false := by
    simp only [stock_rejected, c6Keep, Bool.or_eq_false_iff, decide_eq_false_iff_not]
    refine ⟨⟨⟨⟨by decide, by decide⟩, by norm_num⟩, ?_⟩, by norm_num⟩
    rw [show |(20 : ℚ)| = 20 from abs_of_pos (by norm_num)]
    norm_num
  rw [hk] at hr
  cases hr

/-- Days 5, turnover 25: the "high" example. -/
def c7High : Stock := { lianban_days := 5, turnover_rate := 25 }

/-- Days 2, turnover exactly 10: the strict-boundary "low" example. -/
def c7Low : Stock := { lianban_days := 2, turnover_rate := 10 }

/-- C7: the enrich stage assigns the risk level by the ordered threshold
ladder with strict `>` on turnover, first match wins ("高风险" = high,
"中高风险" = medium-high, "中等风险" = medium, "低风险" = low); days 5 /
turnover 25 is high, days 2 / turnover 10.0 is low. -/
theorem C7_risk_level :
    (∀ s : Stock, s.lianban_days ≥ 5 → s.turnover_rate > 20 →
      (enhance_stock s).risk_level = some "高风险".data) ∧
    (∀ s : Stock, ¬ (s.lianban_days ≥ 5 ∧ s.turnover_rate > 20) →
      s.lianban_days ≥ 3 → s.turnover_rate > 15 →
      (enhance_stock s).risk_level = some "中高风险".data) ∧
    (∀ s : Stock, ¬ (s.lianban_days ≥ 5 ∧ s.turnover_rate > 20) →
      ¬ (s.lianban_days ≥ 3 ∧ s.turnover_rate > 15) →
      s.lianban_days ≥ 2 → s.turnover_rate > 10 →
      (enhance_stock s).risk_level = some "中等风险".data) ∧
    (∀ s : Stock, ¬ (s.lianban_days ≥ 5 ∧ s.turnover_rate > 20) →
      ¬ (s.lianban_days ≥ 3 ∧ s.turnover_rate > 15) →
      ¬ (s.lianban_days ≥ 2 ∧ s.turnover_rate > 10) →
      (enhance_stock s).risk_level = some "低风险".data) ∧
    (enhance_stock c7High).risk_level = some "高风险".data ∧
    (enhance_stock c7Low).risk_level = some "低风险".data := by
  have hrl : ∀ s : Stock, (enhance_stock s).risk_level =
      some (risk_level_of s.lianban_days s.turnover_rate) := fun s => rfl
  refine ⟨?_, ?_, ?_, ?_, by decide, by decide⟩
  · intro s h1 h2
    rw [hrl, risk_level_of, if_pos ⟨h1, h2⟩]
  · intro s h0 h1 h2
    rw [hrl, risk_level_of, if_neg h0, if_pos ⟨h1, h2⟩]
  · intro s h0 h1 h2 h3
    rw [hrl, risk_level_of, if_neg h0, if_neg h1, if_pos ⟨h2, h3⟩]
  · intro s h0 h1 h2
    rw [hrl, risk_level_of, if_neg h0, if_neg h1, if_neg h2]

/-- C7 witness: the first rule applied to the concrete high-risk record. -/
theorem C7_risk_level_witness :
    (enhance_stock c7High).risk_level = some "高风险".data :=
  C7_risk_level.1 c7High (by decide) (by decide)

/-- A stock with positive market value for the C9 witness. -/
def c9Stock : Stock := { fund_inflow := 8, market_value := 4 }

/-- C9: the enrich stage computes `limit_intensity = change_rate / 10` and
`fund_efficiency = fund_inflow / market_value` only under the
`market_value > 0` guard, with 0 otherwise, so no division by a
non-positive market value is ever performed; when the guard holds, the
stored quotient really inverts the multiplication. -/
theorem C9_enrich_guarded_division :
    (∀ s : Stock, (enhance_stock s).limit_intensity = some (s.change_rate / 10)) ∧
    (∀ s : Stock, s.market_value > 0 →
      (enhance_stock s).fund_efficiency = some (s.fund_inflow / s.market_value)) ∧
    (∀ s : Stock, s.market_value ≤ 0 → (enhance_stock s).fund_efficiency = some 0) ∧
    (∀ s : Stock, s.market_value > 0 →
      ((enhance_stock s).fund_efficiency.getD 0) * s.market_value = s.fund_inflow) := by
  refine ⟨fun s => rfl, ?_, ?_, ?_⟩
  · intro s h
    simp [enhance_stock, if_pos h]
  · intro s h
    simp [enhance_stock, if_neg (not_lt.2 h)]
  · intro s h
    simp only [enhance_stock, Option.getD_some, if_pos h]
    exact div_mul_cancel₀ s.fund_inflow (ne_of_gt h)

/-- C9 witness: the guarded branch evaluated at a concrete positive market
value. -/
theorem C9_enrich_guarded_division_witness :
    (enhance_stock c9Stock).fund_efficiency =
      some (c9Stock.fund_inflow / c9Stock.market_value) :=
  C9_enrich_guarded_division.2.1 c9Stock (by decide)

/-- A stock whose dict already holds a `risk_level` key. -/
def c10Stock : Stock := { risk_level := some "X".data }

/-- C10 counterexample: `enhance_stock_data` does not leave every
pre-existing field unchanged — a record that already carries a
`risk_level` value has it overwritten with the freshly computed tier. -/
theorem C10_overwrite_counterexample :
    c10Stock.risk_level = some "X".data ∧
    (enhance_stock_data [c10Stock]).map (fun s => s.risk_level) =
      [some "低风险".data] ∧
    (enhance_stock_data [c10Stock]).map (fun s => s.risk_level) ≠
      [c10Stock.risk_level] := by
  refine ⟨rfl, by decide, by decide⟩

/-- C10 (amended): `enhance_stock_data` returns a list of the same length
in the same order (a per-index map); each output record keeps every field
other than the four enrichment keys exactly as in the input, and sets
`limit_intensity`, `fund_efficiency`, `risk_level` and `selection_reason`
to the freshly computed values, overwriting those four if present. -/
theorem C10_enhance_frame :
    (∀ l : List Stock, (enhance_stock_data l).length = l.length) ∧
    (∀ (l : List Stock) (i : Nat),
      (enhance_stock_data l)[i]? = (l[i]?).map enhance_stock) ∧
    (∀ s : Stock,
      (enhance_stock s).code = s.code ∧ (enhance_stock s).name = s.name ∧
      (enhance_stock s).price = s.price ∧
      (enhance_stock s).change_rate = s.change_rate ∧
      (enhance_stock s).lianban_days = s.lianban_days ∧
      (enhance_stock s).is_new_stock = s.is_new_stock ∧
      (enhance_stock s).first_limit_time = s.first_limit_time ∧
      (enhance_stock s).last_limit_time = s.last_limit_time ∧
      (enhance_stock s).limit_type = s.limit_type ∧
      (enhance_stock s).fund_inflow = s.fund_inflow ∧
      (enhance_stock s).market_value = s.market_value ∧
      (enhance_stock s).turnover_rate = s.turnover_rate ∧
      (enhance_stock s).pe_ratio = s.pe_ratio ∧
      (enhance_stock s).is_st = s.is_st ∧
      (enhance_stock s).update_time = s.update_time ∧
      (enhance_stock s).change_amount = s.change_amount ∧
      (enhance_stock s).volume = s.volume ∧
      (enhance_stock s).amount = s.amount ∧
      (enhance_stock s).amplitude = s.amplitude ∧
      (enhance_stock s).pb_ratio = s.pb_ratio) ∧
    (∀ s : Stock,
      (enhance_stock s).limit_intensity = some (s.change_rate / 10) ∧
      (enhance_stock s).fund_efficiency =
        some (if s.market_value > 0 then s.fund_inflow / s.market_value else 0) ∧
      (enhance_stock s).risk_level =
        some (risk_level_of s.lianban_days s.turnover_rate) ∧
      (enhance_stock s).selection_reason =
        some (selection_reason_of s.lianban_days
          (risk_level_of s.lianban_days s.turnover_rate))) := by
  refine ⟨fun l => by simp [enhance_stock_data], fun l i => by
    simp [enhance_stock_data], fun s => ?_, fun s => ⟨rfl, rfl, rfl, rfl⟩⟩
  exact ⟨rfl, rfl, rfl, rfl, rfl, rfl, rfl, rfl, rfl, rfl, rfl, rfl, rfl, rfl,
    rfl, rfl, rfl, rfl, rfl, rfl⟩

/-- The claim-side reading of `parse_percentage` for C8: strip surrounding
whitespace and one trailing `%`, then parse. -/
def parse_percentage_claim (value : List Char) : ℚ :=
  let t := pyStrip value
  let t2 := if t.getLast? = some '%' then t.dropLast else t
  (pyFloat (pyStrip t2)).getD 0

/-- C8 counterexample: on `"9%8"` the code removes every `%` and parses
98.0, while the claimed trailing-`%` strip leaves an unparseable string
and would return 0.0. -/
theorem C8_trailing_percent_counterexample :
    parse_percentage "9%8".data = 98 ∧
    parse_percentage_claim "9%8".data = 0 ∧
    parse_percentage "9%8".data ≠ parse_percentage_claim "9%8".data := by
  refine ⟨?_, rfl, ?_⟩
  · show qOfRep (98, 0) = 98
    norm_num [qOfRep]
  · show qOfRep (98, 0) ≠ 0
    norm_num [qOfRep]

theorem removeAll_eq_filter (c : Char) (l : List Char) :
    removeAll c l = l.filter (fun d => decide (d ≠ c)) := by
  induction l with
  | nil => rfl
  | cons d r ih =>
    by_cases h : d = c <;> simp [removeAll, List.filter_cons, h, ih]

/-- C8 (amended): `parse_percentage` is total; it removes every `%`
character (wherever it occurs, not only a trailing one), strips
surrounding whitespace, parses the remainder as a float and returns 0.0
on any parse failure; `parse_percentage("9.87%") = 9.87` and
`parse_percentage("") = 0.0`. -/
theorem C8_parse_percentage_total :
    (∀ value : List Char,
      parse_percentage value =
        (pyFloat (pyStrip (value.filter (fun ch => decide (ch ≠ '%'))))).getD 0) ∧
    parse_percentage "9.87%".data = 987/100 ∧
    parse_percentage "".data = 0 := by
  refine ⟨?_, ?_, rfl⟩
  · intro value
    simp only [parse_percentage, removeAll_eq_filter]
  · show qOfRep (987, 2) = 987/100
    norm_num [qOfRep]
